import Mathlib

/-!
Shallow embedding of the micro-benchmark helper scripts
(`microBM/generateText.py` and `microBM/runscan.py`) and proofs about them.

Conventions used throughout:

* Python's `random.choice(chars)` is modelled by an index oracle
  `g : Nat → Nat`; the `i`-th draw is `chars[g i % chars.length]`, which is
  exactly the set of values `random.choice` can return.
* External process execution (`subprocess.run`) is modelled by an oracle
  describing the decoded `(stdout, stderr)` of each spawned command.
* The filesystem (`os.path.exists`) is modelled as a finite list of the file
  names that exist on disk at the time of the call.
* Python `int` values appearing where negatives are possible are modelled by
  `Int`; counters that the scripts only ever use as non-negative
  (thread counts, repeat counts, sequence numbers) are modelled by `Nat`.
-/

namespace MicroBM

/-! ### generateText.py -/

/-- Python `range(a, b)`: the list `[a, a+1, ..., b-1]` (empty when `b ≤ a`). -/
def pyRange (a b : Nat) : List Nat :=
  List.range' a (b - a)

/-- The alphabet list from `generateText.py`:
`[chr(i) for i in range(ord('a'),ord('z'))] + [chr(i) for i in range(ord('A'),ord('Z'))]
 + [chr(i) for i in range(ord('0'),ord('9'))] + [' ', '-', '.', '_']`.
Note the Python `range` upper bounds are exclusive. -/
def chars : List Char :=
  (pyRange 'a'.toNat 'z'.toNat).map Char.ofNat ++
    (pyRange 'A'.toNat 'Z'.toNat).map Char.ofNat ++
    (pyRange '0'.toNat '9'.toNat).map Char.ofNat ++
    [' ', '-', '.', '_']

/-- Model of `generateLine(len)` from `generateText.py`: build the list
`[random.choice(chars) for i in range(len)]` and concatenate its characters
onto the empty string.  `random.choice` is modelled by the oracle `g`
(see the module docstring); Python `range` over a negative bound is empty,
which `Int.toNat` reproduces. -/
def generateLine (g : Nat → Nat) (len : Int) : String :=
  ((List.range len.toNat).map
      (fun i => chars.get ⟨g i % chars.length, Nat.mod_lt _ (by decide)⟩)).foldl
    (fun res c => res.push c) ""

/-- Model of `generateFile(lineLen, lines)` from `generateText.py`: the list of lines
printed to standard output, one `generateLine(lineLen)` per iteration of
`for l in range(lines)`.  Each line gets its own slice `g l` of the
randomness oracle. -/
def generateFile (g : Nat → Nat → Nat) (lineLen lines : Int) : List String :=
  (List.range lines.toNat).map (fun l => generateLine (g l) lineLen)

/-! ### runscan.py -/

/-- Python `str.strip()`: remove leading and trailing whitespace. -/
def pyStrip (s : String) : String :=
  ⟨((s.data.dropWhile Char.isWhitespace).reverse.dropWhile Char.isWhitespace).reverse⟩

/-- Helper for `pySplit`: split a character list on runs of whitespace,
returning the non-empty maximal runs of non-whitespace characters. -/
def splitWsStep (c : Char) : List Char × List (List Char) → List Char × List (List Char) :=
  fun st =>
    if c.isWhitespace then ([], if st.1 = [] then st.2 else st.1 :: st.2)
    else (c :: st.1, st.2)

/-- Python `str.split()` with no argument: split on runs of whitespace and
discard empty fields. -/
def pySplit (s : String) : List String :=
  let st := s.data.foldr splitWsStep ([], [])
  (if st.1 = [] then st.2 else st.1 :: st.2).map List.asString

/-- A line produced by Python `print(a, b, c, ...)`: the arguments joined by
single spaces (the default separator). -/
def pyPrint : List String → String
  | [] => ""
  | [a] => a
  | a :: rest => a ++ " " ++ pyPrint rest

/-- Constant `searchRe` from `runscan.py`. -/
def searchRe : String := "[aA].*[eE].*[iI].*[oO].*[uU]"

/-- Constant `repeats` from `runscan.py`. -/
def repeats : Nat := 10

/-- The shell command string assembled inside `runOnce(image, arg, threads)`. -/
def runOnceCommand (image arg : String) (threads : Nat) : String :=
  "OMP_NUM_THREADS=" ++ toString threads ++ " /usr/bin/time -p " ++ image ++ " " ++ arg
    ++ " \"" ++ searchRe ++ "\" < large.txt"

/-- Model of `runOnce(image, arg, threads)` from `runscan.py`, with `capture` (i.e. the
external world) modelled by `world : command ↦ (stdout, stderr)`: it captures
both decoded streams and returns `err.strip()`. -/
def runOnce (world : String → String × String) (image arg : String) (threads : Nat) : String :=
  let captured := world (runOnceCommand image arg threads)
  pyStrip captured.2

/-- One data row of the report: the line printed by
`print(t, ", ", real.strip(), "s, ", user.strip(), "s, ", sys.strip(), "s", file=f)`. -/
def dataRow (t : Nat) (realTok userTok sysTok : String) : String :=
  pyPrint [toString t, ", ", pyStrip realTok, "s, ", pyStrip userTok, "s, ", pyStrip sysTok, "s"]

/-- The parsing and printing of one trial inside the report-writing loop:
`(r, real, u, user, s, sys) = times.split()` followed by the row `print`.
Unpacking a split that does not have exactly 6 fields raises `ValueError`,
modelled by `Except.error`. -/
def renderTrial (t : Nat) (times : String) : Except String String :=
  match pySplit times with
  | [_r, realTok, _u, userTok, _s, sysTok] => .ok (dataRow t realTok userTok sysTok)
  | _ => .error "ValueError: unpack"

/-- Render the rows of all trials recorded for one thread count, propagating
the first unpacking error. -/
def renderGroup (t : Nat) : List String → Except String (List String)
  | [] => .ok []
  | times :: rest => do
      let row ← renderTrial t times
      let tail ← renderGroup t rest
      .ok (row :: tail)

/-- Render the data rows of the whole report
(`for t in res.keys(): for times in res[t]: ...`), propagating the first
unpacking error. -/
def renderRows : List (Nat × List String) → Except String (List String)
  | [] => .ok []
  | (t, grp) :: rest => do
      let rows ← renderGroup t grp
      let tail ← renderRows rest
      .ok (rows ++ tail)

/-- Python dict assignment `d[k] = v` on an insertion-ordered association
list: overwrite in place when the key exists, else append. -/
def dictSet (d : List (Nat × List String)) (k : Nat) (v : List String) :
    List (Nat × List String) :=
  if d.any (fun p => p.1 == k) then d.map (fun p => if p.1 == k then (k, v) else p)
  else d ++ [(k, v)]

/-- The trial outputs appended to `res[thread]` by
`for i in range(repeats): res[thread].append(runOnce(image, arg, thread))`.
`trialOut t i` is the (stripped stderr) text captured for trial `i` at thread
count `t`; distinct loop iterations are distinct process spawns, hence the
oracle is indexed by both. -/
def trialsFor (trialOut : Nat → Nat → String) (t reps : Nat) : List String :=
  (List.range reps).map (fun i => trialOut t i)

/-- The dictionary `res` after the loop `for thread in threads: ...` in `run`. -/
def buildRes (trialOut : Nat → Nat → String) (threads : List Nat) (reps : Nat) :
    List (Nat × List String) :=
  threads.foldl (fun d t => dictSet d t (trialsFor trialOut t reps)) []

/-- The sub-header line of the report: `print(image, " ", arg, file=f)` when
`image == "grep"`, else `print(arg, file=f)`. -/
def subHeader (image arg : String) : String :=
  if image = "grep" then pyPrint [image, " ", arg] else arg

/-- The complete list of lines written to the report file for one
`(image, arg)` combination by `run`, or the unpacking error that aborts the
sweep.  (`run` writes exactly one such file per combination, named by
`outputName(image + "_" + arg)`.) -/
def runReport (trialOut : Nat → Nat → String) (image arg : String) (threads : List Nat)
    (reps : Nat) : Except String (List String) := do
  let rows ← renderRows (buildRes trialOut threads reps)
  .ok (["Scan time", subHeader image arg, "Threads, Time, User Time, System Time"] ++ rows)

/-- Python `str.replace(pat, repl)` for a non-empty `pat`: replace the
left-most occurrence and continue scanning after the replacement, never
re-examining replaced text.  The fuel argument (instantiated with the length
of the scanned list by `pyReplace`) only makes the recursion structural. -/
def pyReplaceFuel (pat repl : List Char) : Nat → List Char → List Char
  | _, [] => []
  | 0, l => l
  | fuel + 1, c :: rest =>
      if pat ≠ [] ∧ pat.isPrefixOf (c :: rest) then
        repl ++ pyReplaceFuel pat repl fuel (rest.drop (pat.length - 1))
      else c :: pyReplaceFuel pat repl fuel rest

/-- Python `s.replace(pat, repl)` (for the non-empty pattern used by the
script). -/
def pyReplace (s pat repl : String) : String :=
  ⟨pyReplaceFuel pat.data repl.data s.data.length s.data⟩

/-- Predicate: `l` does not start with an underscore. -/
def noLeadU (l : List Char) : Prop := ∀ r, l ≠ '_' :: r

/-- The candidate file name `nameBase + "_" + str(version) + ".res"` probed by
the `while` loop of `outputName`. -/
def candName (base : String) (version : Nat) : String :=
  base ++ "_" ++ toString version ++ ".res"

/-- The probing loop `while os.path.exists(fname)` of `outputName`, over the snapshot
`fs` of existing file names.  The fuel argument (instantiated with
`fs.length + 1`, enough for the loop to reach a fresh name) only makes the
recursion structural. -/
def probeLoop (fs : List String) (base : String) : Nat → String → Nat → String
  | 0, fname, _ => fname
  | fuel + 1, fname, version =>
      if fname ∈ fs then probeLoop fs base fuel (candName base (version + 1)) (version + 1)
      else fname

/-- The suffix-probing part of `outputName`: start from `nameBase + "_1.res"`
and `version = 1` and increment while the candidate exists. -/
def seqOutputName (fs : List String) (base : String) : String :=
  probeLoop fs base (fs.length + 1) (base ++ "_1.res") 1

/-- Model of `outputName(test)` from `runscan.py`, with the hostname, current date and
filesystem snapshot passed explicitly:
`nameBase = (test + "_" + hostName + "_" + dateString).replace("__", "_")`,
then probe `nameBase + "_1.res"`, `nameBase + "_2.res"`, ... until an unused
name is found. -/
def outputName (fs : List String) (test hostName dateString : String) : String :=
  seqOutputName fs (pyReplace (test ++ "_" ++ hostName ++ "_" ++ dateString) "__" "_")

/-! ### Decimal-numeral helpers

`outputName` distinguishes candidate file names only through `str(version)`;
these helpers let us prove that `Nat.repr` (Lean's `str` for naturals) is
injective, so distinct version numbers give distinct candidate names. -/

/-- The numeric value of a decimal digit character. -/
def decDigit (c : Char) : Nat := c.toNat - '0'.toNat

/-- Read a decimal digit string back into a number. -/
def decodeDigits (l : List Char) : Nat :=
  l.foldl (fun a c => a * 10 + decDigit c) 0

/-- The decimal digit characters of `n`, most significant first (the fuel-free
version of `Nat.toDigitsCore 10`). -/
def reprDigits (n : Nat) : List Char :=
  if n < 10 then [Nat.digitChar (n % 10)]
  else reprDigits (n / 10) ++ [Nat.digitChar (n % 10)]
termination_by n
decreasing_by exact Nat.div_lt_self (by omega) (by omega)

end MicroBM

namespace MicroBM

/-! ### Lemmas: decimal numerals -/

theorem decDigit_digitChar {d : Nat} (h : d < 10) : decDigit (Nat.digitChar d) = d := by
  interval_cases d <;> rfl

theorem decodeDigits_aux (n : Nat) :
    ∀ acc, List.foldl (fun a c => a * 10 + decDigit c) acc (reprDigits n) =
      acc * 10 ^ (reprDigits n).length + n := by
  induction n using Nat.strong_induction_on with
  | _ n ih =>
    intro acc
    by_cases h : n < 10
    · rw [reprDigits, if_pos h]
      simp only [List.foldl_cons, List.foldl_nil, List.length_singleton, pow_one]
      rw [Nat.mod_eq_of_lt h, decDigit_digitChar h]
    · rw [reprDigits, if_neg h]
      have hdiv : n / 10 < n := Nat.div_lt_self (by omega) (by omega)
      rw [List.foldl_append, ih (n / 10) hdiv acc]
      simp only [List.foldl_cons, List.foldl_nil, List.length_append, List.length_singleton]
      rw [decDigit_digitChar (Nat.mod_lt n (by omega))]
      rw [pow_succ, ← mul_assoc]
      omega

theorem decodeDigits_reprDigits (n : Nat) : decodeDigits (reprDigits n) = n := by
  have := decodeDigits_aux n 0
  simpa [decodeDigits] using this

theorem reprDigits_injective {a b : Nat} (h : reprDigits a = reprDigits b) : a = b := by
  have := congrArg decodeDigits h
  simpa [decodeDigits_reprDigits] using this

theorem toDigitsCore_eq_reprDigits :
    ∀ (fuel n : Nat) (ds : List Char), n < fuel →
      Nat.toDigitsCore 10 fuel n ds = reprDigits n ++ ds := by
  intro fuel
  induction fuel with
  | zero => omega
  | succ fuel ih =>
    intro n ds h
    rw [Nat.toDigitsCore]
    by_cases h10 : n / 10 = 0
    · have hn : n < 10 := (Nat.div_eq_zero_iff (by omega)).mp h10
      rw [if_pos h10]
      conv_rhs => rw [reprDigits, if_pos hn]
      simp
    · have hn : ¬n < 10 := fun hlt => h10 (Nat.div_eq_of_lt hlt)
      have hdiv : n / 10 < n := Nat.div_lt_self (by omega) (by omega)
      rw [if_neg h10, ih (n / 10) _ (by omega)]
      conv_rhs => rw [reprDigits, if_neg hn]
      simp

theorem natRepr_data (n : Nat) : (Nat.repr n).data = reprDigits n := by
  show (List.asString (Nat.toDigits 10 n)).data = reprDigits n
  rw [Nat.toDigits, toDigitsCore_eq_reprDigits (n + 1) n [] (by omega)]
  simp [List.asString]

theorem natRepr_injective {a b : Nat} (h : Nat.repr a = Nat.repr b) : a = b := by
  have hd := congrArg String.data h
  rw [natRepr_data, natRepr_data] at hd
  exact reprDigits_injective hd

/-! ### Lemmas: output file naming -/

theorem candName_eq_append (base : String) (v : Nat) :
    candName base v = base ++ ("_" ++ (toString v ++ ".res")) := by
  unfold candName
  rw [String.append_assoc, String.append_assoc]

theorem candName_injective (base : String) {v w : Nat}
    (h : candName base v = candName base w) : v = w := by
  rw [candName_eq_append, candName_eq_append] at h
  have hd := congrArg String.data h
  simp only [String.data_append] at hd
  have h2 := List.append_cancel_left (List.append_cancel_left hd)
  have h3 := List.append_cancel_right h2
  exact reprDigits_injective (by rw [← natRepr_data, ← natRepr_data]; exact h3)

theorem exists_fresh (fs : List String) (base : String) :
    ∃ i, i ≤ fs.length ∧ candName base (1 + i) ∉ fs := by
  by_contra hcon
  push_neg at hcon
  have hsub : (Finset.range (fs.length + 1)).image (fun i => candName base (1 + i)) ⊆
      fs.toFinset := by
    intro x hx
    simp only [Finset.mem_image, Finset.mem_range] at hx
    obtain ⟨i, hi, rfl⟩ := hx
    exact List.mem_toFinset.mpr (hcon i (by omega))
  have hcard :
      ((Finset.range (fs.length + 1)).image (fun i => candName base (1 + i))).card =
        fs.length + 1 := by
    rw [Finset.card_image_of_injOn, Finset.card_range]
    intro a _ b _ hab
    have := candName_injective base hab
    omega
  have h1 := Finset.card_le_card hsub
  have h2 := List.toFinset_card_le fs
  omega

theorem probeLoop_not_mem (fs : List String) (base : String) :
    ∀ fuel v, (∃ i, i ≤ fuel ∧ candName base (v + i) ∉ fs) →
      probeLoop fs base fuel (candName base v) v ∉ fs := by
  intro fuel
  induction fuel with
  | zero =>
    rintro v ⟨i, hi, hnot⟩
    have h0 : i = 0 := by omega
    subst h0
    simpa [probeLoop] using hnot
  | succ fuel ih =>
    rintro v ⟨i, hi, hnot⟩
    rw [probeLoop]
    by_cases hmem : candName base v ∈ fs
    · rw [if_pos hmem]
      have hi0 : i ≠ 0 := by
        rintro rfl
        simp only [Nat.add_zero] at hnot
        exact hnot hmem
      exact ih (v + 1) ⟨i - 1, by omega, by
        have hvi : v + 1 + (i - 1) = v + i := by omega
        rw [hvi]; exact hnot⟩
    · rw [if_neg hmem]
      exact hmem

theorem seqOutputName_not_mem (fs : List String) (base : String) :
    seqOutputName fs base ∉ fs := by
  have hinit : base ++ "_1.res" = candName base 1 := by
    rw [candName_eq_append]
    rfl
  unfold seqOutputName
  rw [hinit]
  obtain ⟨i, hi, hfresh⟩ := exists_fresh fs base
  exact probeLoop_not_mem fs base (fs.length + 1) 1 ⟨i, by omega, hfresh⟩

theorem outputName_not_mem (fs : List String) (test hostName dateString : String) :
    outputName fs test hostName dateString ∉ fs :=
  seqOutputName_not_mem fs _

theorem seqOutputName_one_exists (base : String) :
    seqOutputName [base ++ "_1.res"] base = base ++ "_2.res" := by
  have h1 : base ++ "_1.res" = candName base 1 := by rw [candName_eq_append]; rfl
  have h2 : base ++ "_2.res" = candName base 2 := by rw [candName_eq_append]; rfl
  have hne : candName base 2 ≠ candName base 1 := fun h => by
    have := candName_injective base h; omega
  unfold seqOutputName probeLoop
  simp only [List.length_singleton]
  rw [if_pos (by simp)]
  rw [probeLoop]
  rw [if_neg (by simpa [h1.symm, h2.symm] using fun h => hne (h2 ▸ h1 ▸ congrArg id h))]
  exact h2.symm

/-! ### Lemmas: the report-writing loop -/

theorem renderTrial_eq (t : Nat) (s : String) :
    renderTrial t s =
      match pySplit s with
      | [_r, b, _u, d, _s2, f] => Except.ok (dataRow t b d f)
      | _ => Except.error "ValueError: unpack" := rfl

theorem renderTrial_ok_of_six (t : Nat) (s : String) (h : (pySplit s).length = 6) :
    ∃ a b c, renderTrial t s = .ok (dataRow t a b c) := by
  rcases hsp : pySplit s with _ | ⟨x1, _ | ⟨x2, _ | ⟨x3, _ | ⟨x4, _ | ⟨x5, _ | ⟨x6, _ | ⟨x7, r⟩⟩⟩⟩⟩⟩⟩ <;>
    rw [hsp] at h <;> simp at h
  exact ⟨x2, x4, x6, by rw [renderTrial_eq, hsp]⟩

theorem renderTrial_error_of_not_six (t : Nat) (s : String) (h : (pySplit s).length ≠ 6) :
    renderTrial t s = .error "ValueError: unpack" := by
  rcases hsp : pySplit s with _ | ⟨x1, _ | ⟨x2, _ | ⟨x3, _ | ⟨x4, _ | ⟨x5, _ | ⟨x6, _ | ⟨x7, r⟩⟩⟩⟩⟩⟩⟩ <;>
    rw [renderTrial_eq, hsp] <;> rw [hsp] at h <;> simp at h ⊢

theorem renderGroup_ok (t : Nat) :
    ∀ g : List String, (∀ s ∈ g, (pySplit s).length = 6) →
      ∃ rows, renderGroup t g = .ok rows ∧ rows.length = g.length ∧
        ∀ r ∈ rows, ∃ a b c, r = dataRow t a b c := by
  intro g
  induction g with
  | nil => exact fun _ => ⟨[], rfl, rfl, by simp⟩
  | cons s rest ih =>
    intro h
    obtain ⟨a, b, c, hok⟩ := renderTrial_ok_of_six t s (h s (by simp))
    obtain ⟨rows, hrows, hlen, hprop⟩ := ih (fun x hx => h x (by simp [hx]))
    refine ⟨dataRow t a b c :: rows, ?_, by simp [hlen], ?_⟩
    · simp only [renderGroup, hok, hrows]; rfl
    · intro r hr
      rcases List.mem_cons.mp hr with hr | hr
      · exact ⟨a, b, c, hr⟩
      · exact hprop r hr

theorem renderGroup_error (t : Nat) :
    ∀ g : List String, (∃ s ∈ g, (pySplit s).length ≠ 6) →
      ∃ e, renderGroup t g = .error e := by
  intro g
  induction g with
  | nil => rintro ⟨s, hs, -⟩; cases hs
  | cons s rest ih =>
    rintro ⟨x, hx, hbad⟩
    rcases List.mem_cons.mp hx with rfl | hx
    · exact ⟨"ValueError: unpack", by
        simp only [renderGroup, renderTrial_error_of_not_six t x hbad]; rfl⟩
    · cases htr : renderTrial t s with
      | error e => exact ⟨e, by simp only [renderGroup, htr]; rfl⟩
      | ok row =>
        obtain ⟨e, he⟩ := ih ⟨x, hx, hbad⟩
        exact ⟨e, by simp only [renderGroup, htr, he]; rfl⟩

theorem trialsFor_length (trialOut : Nat → Nat → String) (t reps : Nat) :
    (trialsFor trialOut t reps).length = reps := by
  simp [trialsFor]

theorem mem_trialsFor {trialOut : Nat → Nat → String} {t reps : Nat} {s : String} :
    s ∈ trialsFor trialOut t reps ↔ ∃ i, i < reps ∧ s = trialOut t i := by
  simp only [trialsFor, List.mem_map, List.mem_range]
  exact ⟨fun ⟨i, hi, hs⟩ => ⟨i, hi, hs.symm⟩, fun ⟨i, hi, hs⟩ => ⟨i, hi, hs.symm⟩⟩

theorem renderRows_ok_of_six (trialOut : Nat → Nat → String) (reps : Nat) :
    ∀ threads : List Nat,
      (∀ t ∈ threads, ∀ i, i < reps → (pySplit (trialOut t i)).length = 6) →
      ∃ groups : List (List String),
        renderRows (threads.map (fun t => (t, trialsFor trialOut t reps))) =
          .ok groups.flatten ∧
        List.Forall₂ (fun t g => g.length = reps ∧ ∀ r ∈ g, ∃ a b c, r = dataRow t a b c)
          threads groups := by
  intro threads
  induction threads with
  | nil => exact fun _ => ⟨[], rfl, List.Forall₂.nil⟩
  | cons t ts ih =>
    intro h
    have hgrp : ∀ s ∈ trialsFor trialOut t reps, (pySplit s).length = 6 := by
      intro s hs
      obtain ⟨i, hi, rfl⟩ := mem_trialsFor.mp hs
      exact h t (by simp) i hi
    obtain ⟨rows, hrows, hlen, hprop⟩ := renderGroup_ok t (trialsFor trialOut t reps) hgrp
    obtain ⟨groups, hgroups, hall⟩ := ih (fun x hx i hi => h x (by simp [hx]) i hi)
    refine ⟨rows :: groups, ?_, List.Forall₂.cons ⟨by rw [hlen, trialsFor_length], hprop⟩ hall⟩
    simp only [List.map_cons, renderRows, hrows, hgroups]; rfl

theorem renderRows_error_of_bad (trialOut : Nat → Nat → String) (reps : Nat) :
    ∀ threads : List Nat,
      (∃ t ∈ threads, ∃ i, i < reps ∧ (pySplit (trialOut t i)).length ≠ 6) →
      ∃ e, renderRows (threads.map (fun t => (t, trialsFor trialOut t reps))) = .error e := by
  intro threads
  induction threads with
  | nil => rintro ⟨t, ht, -⟩; cases ht
  | cons t ts ih =>
    rintro ⟨x, hx, i, hi, hbad⟩
    rcases List.mem_cons.mp hx with rfl | hx
    · obtain ⟨e, he⟩ := renderGroup_error x (trialsFor trialOut x reps)
        ⟨trialOut x i, mem_trialsFor.mpr ⟨i, hi, rfl⟩, hbad⟩
      exact ⟨e, by simp only [List.map_cons, renderRows, he]; rfl⟩
    · cases hg : renderGroup t (trialsFor trialOut t reps) with
      | error e => exact ⟨e, by simp only [List.map_cons, renderRows, hg]; rfl⟩
      | ok rows =>
        obtain ⟨e, he⟩ := ih ⟨x, hx, i, hi, hbad⟩
        exact ⟨e, by simp only [List.map_cons, renderRows, hg, he]; rfl⟩

theorem dictSet_not_mem (d : List (Nat × List String)) (k : Nat) (v : List String)
    (h : d.any (fun p => p.1 == k) = false) : dictSet d k v = d ++ [(k, v)] := by
  rw [dictSet, if_neg]
  simp [h]

theorem buildRes_go (trialOut : Nat → Nat → String) (reps : Nat) :
    ∀ (threads : List Nat) (acc : List (Nat × List String)), threads.Nodup →
      (∀ t ∈ threads, acc.any (fun p => p.1 == t) = false) →
      List.foldl (fun d t => dictSet d t (trialsFor trialOut t reps)) acc threads =
        acc ++ threads.map (fun t => (t, trialsFor trialOut t reps)) := by
  intro threads
  induction threads with
  | nil => simp
  | cons t ts ih =>
    intro acc hnd hacc
    rw [List.foldl_cons, dictSet_not_mem _ _ _ (hacc t (by simp))]
    rw [ih (acc ++ [(t, trialsFor trialOut t reps)]) (List.Nodup.of_cons hnd) ?_]
    · simp
    · intro x hx
      rw [List.any_append]
      have h1 := hacc x (by simp [hx])
      have h2 : t ≠ x := fun h => (List.nodup_cons.mp hnd).1 (h ▸ hx)
      simp [h1, h2, Ne.symm h2]

theorem buildRes_eq_map (trialOut : Nat → Nat → String) (reps : Nat) (threads : List Nat)
    (hnd : threads.Nodup) :
    buildRes trialOut threads reps = threads.map (fun t => (t, trialsFor trialOut t reps)) := by
  rw [buildRes, buildRes_go trialOut reps threads [] hnd (by simp)]
  rfl

theorem pyReplaceFuel_nil (pat repl : List Char) (fuel : Nat) :
    pyReplaceFuel pat repl fuel [] = [] := by
  cases fuel <;> rfl

theorem pyReplaceFuel_dd_cons_ne (fuel : Nat) (c : Char) (rest : List Char)
    (h : ¬(c = '_' ∧ ∃ r, rest = '_' :: r)) :
    pyReplaceFuel ['_', '_'] ['_'] (fuel + 1) (c :: rest) =
      c :: pyReplaceFuel ['_', '_'] ['_'] fuel rest := by
  rw [pyReplaceFuel, if_neg]
  rintro ⟨-, hpre⟩
  simp only [List.isPrefixOf, Bool.and_eq_true, beq_iff_eq] at hpre
  obtain ⟨hc, hrest⟩ := hpre
  cases rest with
  | nil => simp [List.isPrefixOf] at hrest
  | cons d r =>
    simp only [List.isPrefixOf, Bool.and_eq_true, beq_iff_eq] at hrest
    exact h ⟨hc.symm, r, by rw [hrest.1]⟩

theorem pyReplaceFuel_dd_cons_match (fuel : Nat) (rest : List Char) :
    pyReplaceFuel ['_', '_'] ['_'] (fuel + 1) ('_' :: '_' :: rest) =
      '_' :: pyReplaceFuel ['_', '_'] ['_'] fuel rest := by
  rw [pyReplaceFuel, if_pos]
  · simp
  · exact ⟨by simp, by simp [List.isPrefixOf]⟩

theorem noLeadU_pyReplaceFuel (fuel : Nat) (l : List Char) (h : noLeadU l) :
    noLeadU (pyReplaceFuel ['_', '_'] ['_'] fuel l) := by
  cases l with
  | nil => rw [pyReplaceFuel_nil]; intro r hr; cases hr
  | cons d r₂ =>
    have hd : d ≠ '_' := fun hdu => h r₂ (by rw [hdu])
    cases fuel with
    | zero => exact h
    | succ fuel =>
      rw [pyReplaceFuel_dd_cons_ne fuel d r₂ (fun hc => hd hc.1)]
      intro r hr
      exact hd (List.cons.injEq .. ▸ hr).1

theorem not_dd_sub_cons (c : Char) (t : List Char) (hc : c = '_' → noLeadU t)
    (ht : ¬(['_', '_'] <:+: t)) : ¬(['_', '_'] <:+: c :: t) := by
  rw [ List.infix_cons_iff]
  rintro (hpre | hinf)
  · rw [ List.cons_prefix_cons] at hpre
    obtain ⟨hc', hpre'⟩ := hpre
    obtain ⟨r, hr⟩ := hpre'
    exact hc hc'.symm r hr.symm
  · exact ht hinf

theorem not_sub_tail {pat : List Char} {c : Char} {t : List Char}
    (h : ¬(pat <:+: c :: t)) : ¬(pat <:+: t) :=
  fun hinf => h (hinf.trans (List.suffix_cons c t).isInfix)

theorem collapse_no_dd :
    ∀ (fuel : Nat) (l : List Char), l.length ≤ fuel → ¬(['_', '_', '_'] <:+: l) →
      ¬(['_', '_'] <:+: pyReplaceFuel ['_', '_'] ['_'] fuel l) := by
  intro fuel
  induction fuel with
  | zero =>
    intro l hlen _
    have : l = [] := List.length_eq_zero.mp (by omega)
    subst this
    rw [pyReplaceFuel_nil]
    simp
  | succ fuel ih =>
    intro l hlen htd
    cases l with
    | nil => rw [pyReplaceFuel_nil]; simp
    | cons c rest =>
      by_cases hmatch : c = '_' ∧ ∃ r, rest = '_' :: r
      · obtain ⟨hc, r₂, hrest⟩ := hmatch
        subst hc hrest
        rw [pyReplaceFuel_dd_cons_match]
        have hr₂ : noLeadU r₂ := by
          intro r hr
          exact htd ⟨[], r, by rw [hr]; rfl⟩
        apply not_dd_sub_cons _ _ (fun _ => noLeadU_pyReplaceFuel fuel r₂ hr₂)
        apply ih r₂ (by simp at hlen; omega)
        exact not_sub_tail (not_sub_tail htd)
      · rw [pyReplaceFuel_dd_cons_ne fuel c rest hmatch]
        apply not_dd_sub_cons
        · intro hc
          have hrest : noLeadU rest := by
            intro r hr
            exact hmatch ⟨hc, r, hr⟩
          exact noLeadU_pyReplaceFuel fuel rest hrest
        · exact ih rest (by simp at hlen; omega) (not_sub_tail htd)

theorem seqOutputName_two_exist (base : String) :
    seqOutputName [base ++ "_1.res", base ++ "_2.res"] base = base ++ "_3.res" := by
  have h1 : base ++ "_1.res" = candName base 1 := by rw [candName_eq_append]; rfl
  have h2 : base ++ "_2.res" = candName base 2 := by rw [candName_eq_append]; rfl
  have h3 : base ++ "_3.res" = candName base 3 := by rw [candName_eq_append]; rfl
  have hne31 : candName base 3 ≠ candName base 1 := fun h => by
    have := candName_injective base h; omega
  have hne32 : candName base 3 ≠ candName base 2 := fun h => by
    have := candName_injective base h; omega
  unfold seqOutputName probeLoop
  simp only [List.length_cons, List.length_singleton]
  rw [if_pos (by simp)]
  rw [probeLoop]
  rw [if_pos (by rw [← h2]; simp)]
  rw [probeLoop]
  rw [if_neg (by
    rw [h1, h2]
    simp only [List.mem_cons, List.mem_singleton, List.not_mem_nil]
    push_neg
    exact ⟨hne31, hne32, by simp⟩)]
  exact h3.symm

/-! ### Lemmas: the text generator -/

theorem data_foldl_push :
    ∀ (l : List Char) (s : String), (l.foldl (fun r c => r.push c) s).data = s.data ++ l := by
  intro l
  induction l with
  | nil => simp
  | cons c l ih =>
    intro s
    rw [List.foldl_cons, ih]
    cases s
    simp [String.push]

theorem generateLine_data (g : Nat → Nat) (len : Int) :
    (generateLine g len).data =
      (List.range len.toNat).map
        (fun i => chars.get ⟨g i % chars.length, Nat.mod_lt _ (by decide)⟩) := by
  rw [generateLine, data_foldl_push]
  rfl

theorem generateLine_length (g : Nat → Nat) (len : Int) :
    (generateLine g len).length = len.toNat := by
  rw [String.length, generateLine_data, List.length_map, List.length_range]

theorem generateLine_mem_chars (g : Nat → Nat) (len : Int) :
    ∀ c ∈ (generateLine g len).data, c ∈ chars := by
  rw [generateLine_data]
  intro c hc
  obtain ⟨i, _, rfl⟩ := List.mem_map.mp hc
  exact List.get_mem chars _ _

/-! ### Lemmas: report shape -/

theorem flatten_length_of_forall₂ (reps : Nat) :
    ∀ {ts : List Nat} {gs : List (List String)},
      List.Forall₂ (fun _ g => (g : List String).length = reps) ts gs →
      gs.flatten.length = ts.length * reps := by
  intro ts gs h
  induction h with
  | nil => simp
  | @cons t g ts gs h₁ _ ih =>
    simp only [List.flatten_cons, List.length_append, List.length_cons, ih, h₁,
      Nat.succ_mul]
    omega

theorem subHeader_grep (arg : String) : subHeader "grep" arg = "grep   " ++ arg := by
  rw [subHeader, if_pos rfl]
  show "grep" ++ " " ++ (" " ++ (" " ++ arg)) = "grep   " ++ arg
  rw [String.append_assoc, ← String.append_assoc, ← String.append_assoc,
    ← String.append_assoc]
  rfl

theorem subHeader_not_grep (image arg : String) (h : image ≠ "grep") :
    subHeader image arg = arg := by
  rw [subHeader, if_neg h]

end MicroBM

namespace MicroBM

/-! ## The claims -/

/-- Claim C5: for all integers `length ≥ 0` and `lineCount ≥ 0`,
`generateFile(length, lineCount)` emits exactly `lineCount` output lines, and
each emitted line is `generateLine(length)`: a string of exactly `length`
characters, each a member of the alphabet list `chars` (length 0 yields empty
lines). -/
theorem claim5_generate_shape (g : Nat → Nat → Nat) (lineLen lineCount : Int)
    (hw : 0 ≤ lineLen) (hc : 0 ≤ lineCount) :
    ((generateFile g lineLen lineCount).length : Int) = lineCount ∧
    ∀ s ∈ generateFile g lineLen lineCount,
      (∃ l, l < lineCount.toNat ∧ s = generateLine (g l) lineLen) ∧
      ((s.length : Int) = lineLen ∧ ∀ c ∈ s.data, c ∈ chars) := by
  constructor
  · rw [generateFile, List.length_map, List.length_range, Int.toNat_of_nonneg hc]
  · intro s hs
    obtain ⟨l, hl, rfl⟩ := List.mem_map.mp hs
    refine ⟨⟨l, List.mem_range.mp hl, rfl⟩, ?_, generateLine_mem_chars (g l) lineLen⟩
    rw [generateLine_length, Int.toNat_of_nonneg hw]

/-- Witness for C5 at a concrete input. -/
theorem claim5_witness :
    (0 : Int) ≤ 2 ∧ (0 : Int) ≤ 3 ∧
    (((generateFile (fun _ _ => 0) 2 3).length : Int) = 3 ∧
      ∀ s ∈ generateFile (fun _ _ => 0) 2 3,
        (∃ l, l < (3 : Int).toNat ∧ s = generateLine ((fun _ _ => (0 : Nat)) l) 2) ∧
        ((s.length : Int) = 2 ∧ ∀ c ∈ s.data, c ∈ chars)) :=
  ⟨by decide, by decide, claim5_generate_shape (fun _ _ => 0) 2 3 (by decide) (by decide)⟩

/-- Claim C6 counterexample: the spec's alphabet claims all 26 lowercase
letters, all 26 uppercase letters and all 10 digits occur, but the Python
`range(ord('a'), ord('z'))` bounds are exclusive at the top, so `'z'`, `'Z'`
and `'9'` are not in the sampled list. -/
theorem claim6_counterexample :
    'z' ∉ chars ∧ 'Z' ∉ chars ∧ '9' ∉ chars ∧ 'y' ∈ chars ∧ 'Y' ∈ chars ∧ '8' ∈ chars := by
  decide

/-- Claim C6 (amended): the alphabet the generator samples from is exactly the
25 lowercase letters `a`–`y`, the 25 uppercase letters `A`–`Y`, the 9 digits
`0`–`8`, and the four characters space, hyphen, period, underscore (the
Python `range` calls exclude `'z'`, `'Z'` and `'9'`). -/
theorem claim6_alphabet :
    chars =
      ['a', 'b', 'c', 'd', 'e', 'f', 'g', 'h', 'i', 'j', 'k', 'l', 'm', 'n', 'o', 'p',
        'q', 'r', 's', 't', 'u', 'v', 'w', 'x', 'y',
        'A', 'B', 'C', 'D', 'E', 'F', 'G', 'H', 'I', 'J', 'K', 'L', 'M', 'N', 'O', 'P',
        'Q', 'R', 'S', 'T', 'U', 'V', 'W', 'X', 'Y',
        '0', '1', '2', '3', '4', '5', '6', '7', '8',
        ' ', '-', '.', '_'] := by
  decide

/-- Claim C7: `runOnce(image, arg, threads)` invokes exactly the shell command
`OMP_NUM_THREADS=<threads> /usr/bin/time -p <image> <arg> "<searchRe>" < large.txt`
with the fixed regex spelled out literally and the fixed input file
`large.txt`; the thread count appears only in the `OMP_NUM_THREADS=`
environment prefix. -/
theorem claim7_command_string (world : String → String × String)
    (image arg : String) (threads : Nat) :
    runOnceCommand image arg threads =
      "OMP_NUM_THREADS=" ++ toString threads ++ " /usr/bin/time -p " ++ image ++ " " ++ arg
        ++ " \"[aA].*[eE].*[iI].*[oO].*[uU]\" < large.txt" ∧
    runOnce world image arg threads =
      pyStrip (world
        ("OMP_NUM_THREADS=" ++ toString threads ++ " /usr/bin/time -p " ++ image ++ " "
          ++ arg ++ " \"[aA].*[eE].*[iI].*[oO].*[uU]\" < large.txt")).2 := by
  have hcmd : runOnceCommand image arg threads =
      "OMP_NUM_THREADS=" ++ toString threads ++ " /usr/bin/time -p " ++ image ++ " " ++ arg
        ++ " \"[aA].*[eE].*[iI].*[oO].*[uU]\" < large.txt" := by
    simp only [runOnceCommand, searchRe, String.append_assoc]
    rfl
  exact ⟨hcmd, by rw [runOnce, ← hcmd]⟩

/-- Claim C8 counterexample: the driver does not combine the two captured
streams; it returns only the stripped stderr.  With stdout `"A"` and stderr
`"B"` the returned text is `"B"`, not the combination `"AB"`, and changing
the stdout does not change the returned text at all. -/
theorem claim8_counterexample :
    runOnce (fun _ => ("A", "B")) "./omp_scan" "serial" 1 = "B" ∧
    ("B" : String) ≠ pyStrip ("A" ++ "B") ∧
    runOnce (fun _ => ("CHANGED", "B")) "./omp_scan" "serial" 1 =
      runOnce (fun _ => ("A", "B")) "./omp_scan" "serial" 1 := by
  refine ⟨rfl, by decide, rfl⟩

/-- Claim C8 (amended): the text the driver later parses for the timing fields
is only the decoded stderr stream of the spawned process, stripped of
surrounding whitespace; the decoded stdout is captured but discarded, so the
returned value depends only on the stderr component. -/
theorem claim8_only_stderr (w₁ w₂ : String → String × String) (image arg : String)
    (threads : Nat)
    (h : (w₁ (runOnceCommand image arg threads)).2 = (w₂ (runOnceCommand image arg threads)).2) :
    runOnce w₁ image arg threads = pyStrip (w₁ (runOnceCommand image arg threads)).2 ∧
    runOnce w₁ image arg threads = runOnce w₂ image arg threads := by
  exact ⟨rfl, by rw [runOnce, runOnce, h]⟩

/-- Witness for C8 (amended) at a concrete input. -/
theorem claim8_witness :
    ((fun _ => ("A", " B ") : String → String × String)
        (runOnceCommand "./omp_scan" "serial" 1)).2 =
      ((fun _ => ("X", " B ") : String → String × String)
        (runOnceCommand "./omp_scan" "serial" 1)).2 ∧
    (runOnce (fun _ => ("A", " B ")) "./omp_scan" "serial" 1 =
        pyStrip ((fun _ => (("A" : String), (" B " : String)))
          (runOnceCommand "./omp_scan" "serial" 1)).2 ∧
      runOnce (fun _ => ("A", " B ")) "./omp_scan" "serial" 1 =
        runOnce (fun _ => ("X", " B ")) "./omp_scan" "serial" 1) :=
  ⟨rfl, claim8_only_stderr (fun _ => ("A", " B ")) (fun _ => ("X", " B "))
    "./omp_scan" "serial" 1 rfl⟩

/-- Claim C1: for every filesystem snapshot, `outputName` returns a file name
that does not exist on disk at the time of the call: it tries
`base + "_1.res"` and increments the numeric suffix while the candidate
exists, so an existing report file is never returned; in particular, with
only `base_1.res` on disk the result is `base_2.res`, and with `base_1.res`
and `base_2.res` on disk the result is `base_3.res`. -/
theorem claim1_output_name_fresh :
    (∀ (fs : List String) (test hostName dateString : String),
      outputName fs test hostName dateString ∉ fs) ∧
    (∀ (fs : List String) (base : String), seqOutputName fs base ∉ fs) ∧
    (∀ base : String, seqOutputName [base ++ "_1.res"] base = base ++ "_2.res") ∧
    (∀ base : String,
      seqOutputName [base ++ "_1.res", base ++ "_2.res"] base = base ++ "_3.res") :=
  ⟨outputName_not_mem, seqOutputName_not_mem, seqOutputName_one_exists, seqOutputName_two_exist⟩

/-- Claim C2: when a captured per-trial timing string splits on whitespace
into exactly 6 tokens, the data row records the 2nd token as the real-time
value, the 4th as the user-time value and the 6th as the system-time value,
each stripped and followed by an `"s"` field, preceded by the thread count. -/
theorem claim2_token_order (t : Nat) (s : String) (a b c d e f : String)
    (h : pySplit s = [a, b, c, d, e, f]) :
    renderTrial t s = .ok (dataRow t b d f) ∧
    dataRow t b d f =
      pyPrint [toString t, ", ", pyStrip b, "s, ", pyStrip d, "s, ", pyStrip f, "s"] :=
  ⟨by rw [renderTrial_eq, h], rfl⟩

/-- Witness for C2 at a concrete timing string. -/
theorem claim2_witness :
    pySplit "real 1.02 user 0.50 sys 0.10" = ["real", "1.02", "user", "0.50", "sys", "0.10"] ∧
    (renderTrial 4 "real 1.02 user 0.50 sys 0.10" = .ok (dataRow 4 "1.02" "0.50" "0.10") ∧
      dataRow 4 "1.02" "0.50" "0.10" =
        pyPrint [toString 4, ", ", pyStrip "1.02", "s, ", pyStrip "0.50", "s, ",
          pyStrip "0.10", "s"]) :=
  ⟨by decide,
    claim2_token_order 4 "real 1.02 user 0.50 sys 0.10" "real" "1.02" "user" "0.50" "sys"
      "0.10" (by decide)⟩

/-- Claim C3: a captured timing string that does not split into exactly 6
whitespace-separated tokens (including the empty string) makes the unpacking
step raise, and nothing catches the error, so the whole report generation
aborts instead of skipping the trial; conversely a 6-token split never
raises, and a sweep whose trials all split into 6 tokens produces a report. -/
theorem claim3_malformed_aborts :
    (∀ (t : Nat) (s : String), (pySplit s).length ≠ 6 →
      renderTrial t s = .error "ValueError: unpack") ∧
    (∀ (t : Nat) (s : String), (pySplit s).length = 6 → ∃ r, renderTrial t s = .ok r) ∧
    (∀ (trialOut : Nat → Nat → String) (image arg : String) (threads : List Nat) (reps : Nat),
      threads.Nodup →
      (∃ t ∈ threads, ∃ i, i < reps ∧ (pySplit (trialOut t i)).length ≠ 6) →
      ∃ e, runReport trialOut image arg threads reps = .error e) ∧
    (∀ (trialOut : Nat → Nat → String) (image arg : String) (threads : List Nat) (reps : Nat),
      threads.Nodup →
      (∀ t ∈ threads, ∀ i, i < reps → (pySplit (trialOut t i)).length = 6) →
      ∃ ls, runReport trialOut image arg threads reps = .ok ls) := by
  refine ⟨renderTrial_error_of_not_six, ?_, ?_, ?_⟩
  · intro t s h
    obtain ⟨a, b, c, hok⟩ := renderTrial_ok_of_six t s h
    exact ⟨_, hok⟩
  · intro trialOut image arg threads reps hnd hbad
    obtain ⟨e, he⟩ := renderRows_error_of_bad trialOut reps threads hbad
    exact ⟨e, by simp only [runReport, buildRes_eq_map trialOut reps threads hnd, he]; rfl⟩
  · intro trialOut image arg threads reps hnd h6
    obtain ⟨groups, hg, -⟩ := renderRows_ok_of_six trialOut reps threads h6
    exact ⟨_, by simp only [runReport, buildRes_eq_map trialOut reps threads hnd, hg]; rfl⟩

/-- Witness for C3 at concrete inputs (the empty capture of a failed spawn,
and a well-formed capture). -/
theorem claim3_witness :
    renderTrial 1 "" = .error "ValueError: unpack" ∧
    (∃ r, renderTrial 1 "real 1.02 user 0.50 sys 0.10" = .ok r) ∧
    (∃ e, runReport (fun _ _ => "") "./omp_scan" "serial" [1] 1 = .error e) ∧
    (∃ ls, runReport (fun _ _ => "real 1.02 user 0.50 sys 0.10") "./omp_scan" "serial"
      [1] 1 = .ok ls) :=
  ⟨claim3_malformed_aborts.1 1 "" (by decide),
    claim3_malformed_aborts.2.1 1 "real 1.02 user 0.50 sys 0.10" (by decide),
    claim3_malformed_aborts.2.2.1 (fun _ _ => "") "./omp_scan" "serial" [1] 1 (by simp)
      ⟨1, by simp, 0, by omega, by decide⟩,
    claim3_malformed_aborts.2.2.2 (fun _ _ => "real 1.02 user 0.50 sys 0.10") "./omp_scan"
      "serial" [1] 1 (by simp)
      (fun t _ i _ => (by decide : (pySplit "real 1.02 user 0.50 sys 0.10").length = 6))⟩

/-- Claim C4 counterexample: for the grep baseline the sub-header line is not
`executableName + " " + mode`; `print(image, " ", arg)` inserts the default
separator around the explicit `" "` argument, yielding three spaces. -/
theorem claim4_counterexample :
    runReport (fun _ _ => "real 0.01 user 0.00 sys 0.00") "grep" "-c" [1] 1 =
      .ok ["Scan time", "grep   -c", "Threads, Time, User Time, System Time",
        "1 ,  0.01 s,  0.00 s,  0.00 s"] ∧
    ("grep   -c" : String) ≠ "grep -c" :=
  ⟨by rfl, by decide⟩

/-- Claim C4 (amended): for a duplicate-free thread list whose trials all
split into 6 tokens, one report is produced containing, in order, the header
`"Scan time"`, the sub-header (the mode name, or the executable name joined
to the mode by three spaces for the grep baseline), the column header
`"Threads, Time, User Time, System Time"`, and exactly
`threads.length * reps` data rows grouped by thread count in the declared
thread order, `reps` rows per thread count. -/
theorem claim4_report_structure (trialOut : Nat → Nat → String) (image arg : String)
    (threads : List Nat) (reps : Nat) (hnd : threads.Nodup)
    (h6 : ∀ t ∈ threads, ∀ i, i < reps → (pySplit (trialOut t i)).length = 6) :
    ∃ groups : List (List String),
      runReport trialOut image arg threads reps =
        .ok (["Scan time", subHeader image arg, "Threads, Time, User Time, System Time"]
          ++ groups.flatten) ∧
      List.Forall₂ (fun t g => g.length = reps ∧ ∀ r ∈ g, ∃ a b c, r = dataRow t a b c)
        threads groups ∧
      groups.flatten.length = threads.length * reps ∧
      (image ≠ "grep" → subHeader image arg = arg) ∧
      (∀ m : String, subHeader "grep" m = "grep   " ++ m) := by
  obtain ⟨groups, hg, hall⟩ := renderRows_ok_of_six trialOut reps threads h6
  refine ⟨groups, ?_, hall, ?_, subHeader_not_grep image arg, subHeader_grep⟩
  · simp only [runReport, buildRes_eq_map trialOut reps threads hnd, hg]; rfl
  · exact flatten_length_of_forall₂ reps (hall.imp (fun _ _ h => h.1))

/-- Witness for C4 (amended): the spec's end-to-end scenario
(`threads = [1,2]`, 2 repeats, mode `serial`). -/
theorem claim4_witness :
    ([1, 2] : List Nat).Nodup ∧
    (∃ groups : List (List String),
      runReport (fun _ _ => "real 0.01 user 0.00 sys 0.00") "prog" "serial" [1, 2] 2 =
        .ok (["Scan time", subHeader "prog" "serial",
          "Threads, Time, User Time, System Time"] ++ groups.flatten) ∧
      List.Forall₂ (fun t g => g.length = 2 ∧ ∀ r ∈ g, ∃ a b c, r = dataRow t a b c)
        [1, 2] groups ∧
      groups.flatten.length = ([1, 2] : List Nat).length * 2 ∧
      (("prog" : String) ≠ "grep" → subHeader "prog" "serial" = "serial") ∧
      (∀ m : String, subHeader "grep" m = "grep   " ++ m)) :=
  ⟨by decide,
    claim4_report_structure (fun _ _ => "real 0.01 user 0.00 sys 0.00") "prog" "serial"
      [1, 2] 2 (by decide)
      (fun t _ i _ => (by decide : (pySplit "real 0.01 user 0.00 sys 0.00").length = 6))⟩

/-- Claim C9 counterexample: collapsing `"__"` to `"_"` is a single
left-to-right pass, so a base name with three consecutive underscores (here
from an executable name ending in `_` and a mode starting with `_`) still
contains `"__"` after normalization. -/
theorem claim9_counterexample :
    pyReplace (("x_" ++ "_" ++ "_y") ++ "_" ++ "host" ++ "_" ++ "2026-01-01") "__" "_" =
      "x__y_host_2026-01-01" ∧
    (['_', '_'] <:+:
      (pyReplace (("x_" ++ "_" ++ "_y") ++ "_" ++ "host" ++ "_" ++ "2026-01-01")
        "__" "_").data) :=
  ⟨by decide, by decide⟩

/-- Claim C9 (amended): the normalization replaces each left-to-right
non-overlapping occurrence of `"__"` by `"_"` in one pass; whenever the
un-normalized base name contains no three consecutive underscores, the name
passed to suffixing contains no `"__"` substring (but with `"___"` in the
input a `"__"` can survive, see the counterexample). -/
theorem claim9_collapse (s : String) (h : ¬(['_', '_', '_'] <:+: s.data)) :
    ¬(['_', '_'] <:+: (pyReplace s "__" "_").data) :=
  collapse_no_dd s.data.length s.data le_rfl h

/-- Witness for C9 (amended) at a concrete base name. -/
theorem claim9_witness :
    ¬(['_', '_', '_'] <:+: ("a__b" : String).data) ∧
    ¬(['_', '_'] <:+: (pyReplace "a__b" "__" "_").data) :=
  ⟨by decide, claim9_collapse "a__b" (by decide)⟩

/-- Claim C10: `generateLine` is total over all integer lengths; a negative
length yields the empty string because Python `range` over a negative bound
is empty. -/
theorem claim10_negative_length (g : Nat → Nat) (len : Int) (h : len < 0) :
    generateLine g len = "" := by
  have h0 : len.toNat = 0 := Int.toNat_of_nonpos (by omega)
  rw [generateLine, h0]
  rfl

/-- Witness for C10 at a concrete input. -/
theorem claim10_witness :
    (-1 : Int) < 0 ∧ generateLine (fun _ => 0) (-1) = "" :=
  ⟨by decide, claim10_negative_length (fun _ => 0) (-1) (by decide)⟩

end MicroBM
